import Mathlib

/-!
Shallow embedding of the CHIP-8 virtual machine from `src/main.rs`.

Machine integers are modelled as `Nat`, with `% 2^w` applied exactly where
the Rust code's types wrap (the `wrapping_*` operations and `as u8` casts).
Operations that can panic in the source — array indexing out of range,
`Vec::pop().expect(..)` on an empty stack, and bare (non-wrapping)
arithmetic that overflows a fixed-width integer under Rust's checked
(debug) semantics — are modelled as `Option`-valued functions returning
`none` at the panic.  The `Vec<u16>` call stack (push/pop at the back) is
modelled as a Lean `List` with push/pop at the head, which realises the
same LIFO discipline.  The host random byte consumed by `Cxnn`
(`rand::random()`) is passed to `execute` as an explicit input `rnd`.
-/

/-- Array-write on a `Nat`-indexed function: `updF f a b` is `f` with
index `a` remapped to `b`. -/
def updF {β : Type} (f : Nat → β) (a : Nat) (b : β) : Nat → β :=
  fun j => if j = a then b else f j

/-- The machine state, field for field the Rust `struct Chip8`.
`display` is indexed row-then-column (`display y x`), as in the source's
`display[y][x]`; only indices `y < 32`, `x < 64` are meaningful.  Only
indices below 4096 of `memory`, 16 of `v` and of `keys` are meaningful. -/
structure Chip8 where
  memory : Nat → Nat
  v : Nat → Nat
  i : Nat
  pc : Nat
  stack : List Nat
  delay_timer : Nat
  sound_timer : Nat
  display : Nat → Nat → Bool
  keys : Nat → Bool

/-- The 80-byte font set copied into memory `[0, 80)` by `Chip8::new`. -/
def FONTSET : List Nat :=
  [0xF0, 0x90, 0x90, 0x90, 0xF0,
   0x20, 0x60, 0x20, 0x20, 0x70,
   0xF0, 0x10, 0xF0, 0x80, 0xF0,
   0xF0, 0x10, 0xF0, 0x10, 0xF0,
   0x90, 0x90, 0xF0, 0x10, 0x10,
   0xF0, 0x80, 0xF0, 0x10, 0xF0,
   0xF0, 0x80, 0xF0, 0x90, 0xF0,
   0xF0, 0x10, 0x20, 0x40, 0x40,
   0xF0, 0x90, 0xF0, 0x90, 0xF0,
   0xF0, 0x90, 0xF0, 0x10, 0xF0,
   0xF0, 0x90, 0xF0, 0x90, 0x90,
   0xE0, 0x90, 0xE0, 0x90, 0xE0,
   0xF0, 0x80, 0x80, 0x80, 0xF0,
   0xE0, 0x90, 0x90, 0x90, 0xE0,
   0xF0, 0x80, 0xF0, 0x80, 0xF0,
   0xF0, 0x80, 0xF0, 0x80, 0x80]

/-- `Chip8::new()`: zeroed memory except the font set at `[0, 80)`,
registers zero, `pc = 0x200`, empty stack, timers zero, display clear,
no key pressed. -/
def Chip8.new : Chip8 :=
  { memory := fun a => if a < 80 then FONTSET.getD a 0 else 0
    v := fun _ => 0
    i := 0
    pc := 0x200
    stack := []
    delay_timer := 0
    sound_timer := 0
    display := fun _ _ => false
    keys := fun _ => false }

/-- `load_rom` after `fs::read`: copy the ROM bytes to `memory[0x200..]`.
`self.memory[0x200 .. 0x200 + rom.len()].copy_from_slice(&rom)` panics
(slice index out of range) when `0x200 + rom.len() > 4096`; the panic is
`none`.  The source has no `CapacityExceeded` (or any other) error value
on this path. -/
def Chip8.load_rom (self : Chip8) (rom : List Nat) : Option Chip8 :=
  if 0x200 + rom.length ≤ 4096 then
    some { self with
             memory := fun a =>
               if 0x200 ≤ a ∧ a < 0x200 + rom.length then rom.getD (a - 0x200) 0
               else self.memory a }
  else none

/-- `fetch`: read the big-endian word at `memory[pc], memory[pc+1]` and
advance `pc` by 2.  Both array reads are unchecked in the source and
panic at index ≥ 4096, so the model requires `pc + 1 < 4096` (which also
covers the read at `pc`); under that guard `pc += 2` cannot overflow the
`u16`, so it is a plain `+ 2`. -/
def Chip8.fetch (self : Chip8) : Option (Nat × Chip8) :=
  if self.pc + 1 < 4096 then
    some (((self.memory self.pc) <<< 8) ||| self.memory (self.pc + 1),
          { self with pc := self.pc + 2 })
  else none

/-- Leading sprite bit extraction in `op_dxyn`:
`(sprite_byte >> (7 - col)) & 1`, so `col = 0` is the most significant
bit. -/
def spriteBit (byte col : Nat) : Nat := (byte >>> (7 - col)) &&& 1

/-- `self.display[sy][sx] = val` on the row-column function. -/
def setPix (d : Nat → Nat → Bool) (sy sx : Nat) (val : Bool) : Nat → Nat → Bool :=
  fun py px => if py = sy ∧ px = sx then val else d py px

/-- The inner column loop of `op_dxyn`, processing columns `0..cols` of
row `row` in ascending order.  For each set sprite bit the target pixel
`((xs + col) % 64, (ys + row) % 32)` is XORed (`^= true`, i.e. negated);
the collision test `old_pixel && !display[..]` reduces to `old_pixel`
since the new value is the negation of the old.  Returns the display and
the VF accumulator. -/
def drawCols (xs ys row byte : Nat) (d : Nat → Nat → Bool) (vf : Nat) :
    Nat → (Nat → Nat → Bool) × Nat
  | 0 => (d, vf)
  | c + 1 =>
    let p := drawCols xs ys row byte d vf c
    if spriteBit byte c = 1 then
      let sx := (xs + c) % 64
      let sy := (ys + row) % 32
      let old := p.1 sy sx
      (setPix p.1 sy sx (!old), if old then 1 else p.2)
    else p

/-- The outer row loop of `op_dxyn`, processing rows `0..rows` in
ascending order.  Each row reads `memory[i + row]`, which panics
(`none`) at an index ≥ 4096. -/
def drawRows (mem : Nat → Nat) (iReg xs ys : Nat) (d : Nat → Nat → Bool) (vf : Nat) :
    Nat → Option ((Nat → Nat → Bool) × Nat)
  | 0 => some (d, vf)
  | r + 1 =>
    (drawRows mem iReg xs ys d vf r).bind fun p =>
      if iReg + r < 4096 then
        some (drawCols xs ys r (mem (iReg + r)) p.1 p.2 8)
      else none

/-- `op_dxyn`: origin `(v[x] % 64, v[y] % 32)` from the pre-draw
registers, `v[0xF] = 0` before the loop, then the row loop; the final
`v` update records the reset-then-maybe-set of VF. -/
def Chip8.op_dxyn (self : Chip8) (x y n : Nat) : Option Chip8 :=
  let xs := self.v x % 64
  let ys := self.v y % 32
  (drawRows self.memory self.i xs ys self.display 0 n).map fun p =>
    { self with display := p.1, v := updF self.v 15 p.2 }

/-- `op_8xye`: `v[0xF] = (v[x] >> 7) & 1`, then `v[x] <<= 1` (a `u8`
shift keeps the low 8 bits).  The shift reads `v[x]` after the flag
write, as in the source. -/
def Chip8.op_8xye (self : Chip8) (x : Nat) : Chip8 :=
  let v1 := updF self.v 15 ((self.v x >>> 7) &&& 1)
  { self with v := updF v1 x ((v1 x <<< 1) % 256) }

/-- `op_8xy0`: `v[x] = v[y]`. -/
def Chip8.op_8xy0 (self : Chip8) (x y : Nat) : Chip8 :=
  { self with v := updF self.v x (self.v y) }

/-- `op_8xy1`: `v[x] |= v[y]`. -/
def Chip8.op_8xy1 (self : Chip8) (x y : Nat) : Chip8 :=
  { self with v := updF self.v x (self.v x ||| self.v y) }

/-- `op_8xy2`: `v[x] &= v[y]`. -/
def Chip8.op_8xy2 (self : Chip8) (x y : Nat) : Chip8 :=
  { self with v := updF self.v x (self.v x &&& self.v y) }

/-- `op_8xy3`: `v[x] ^= v[y]`. -/
def Chip8.op_8xy3 (self : Chip8) (x y : Nat) : Chip8 :=
  { self with v := updF self.v x (self.v x ^^^ self.v y) }

/-- `op_8xy4`: `sum = v[x] as u16 + v[y] as u16` (from the pre-write
registers), then `v[0xF] = if sum > 0xFF { 1 } else { 0 }`, then
`v[x] = sum as u8`.  Note the flag is written first, so with `x = 0xF`
the truncated sum overwrites it. -/
def Chip8.op_8xy4 (self : Chip8) (x y : Nat) : Chip8 :=
  let sum := self.v x + self.v y
  let v1 := updF self.v 15 (if sum > 0xFF then 1 else 0)
  { self with v := updF v1 x (sum % 256) }

/-- `op_8xy5`: `v[0xF] = if v[x] >= v[y] { 1 } else { 0 }`, then
`v[x] = v[x].wrapping_sub(v[y])` reading the registers after the flag
write. -/
def Chip8.op_8xy5 (self : Chip8) (x y : Nat) : Chip8 :=
  let v1 := updF self.v 15 (if self.v x ≥ self.v y then 1 else 0)
  { self with v := updF v1 x ((v1 x + 256 - v1 y % 256) % 256) }

/-- `op_8xy6`: `v[0xF] = v[x] & 1`, then `v[x] >>= 1` reading `v[x]`
after the flag write. -/
def Chip8.op_8xy6 (self : Chip8) (x : Nat) : Chip8 :=
  let v1 := updF self.v 15 (self.v x &&& 1)
  { self with v := updF v1 x (v1 x >>> 1) }

/-- `op_8xy7`: `v[0xF] = if v[y] >= v[x] { 1 } else { 0 }`, then
`v[x] = v[y] - v[x]` — a bare (non-wrapping) `u8` subtraction that reads
the registers after the flag write and panics on underflow under Rust's
checked (debug) arithmetic; the panic is `none`. -/
def Chip8.op_8xy7 (self : Chip8) (x y : Nat) : Option Chip8 :=
  let v1 := updF self.v 15 (if self.v y ≥ self.v x then 1 else 0)
  if v1 x ≤ v1 y then some { self with v := updF v1 x (v1 y - v1 x) }
  else none

/-- `op_3xnn`: `pc += 2` if `v[x] == nn`; the bare `u16` add panics on
overflow. -/
def Chip8.op_3xnn (self : Chip8) (x nn : Nat) : Option Chip8 :=
  if self.v x = nn then
    if self.pc + 2 < 65536 then some { self with pc := self.pc + 2 } else none
  else some self

/-- `op_4xnn`: `pc += 2` if `v[x] != nn`. -/
def Chip8.op_4xnn (self : Chip8) (x nn : Nat) : Option Chip8 :=
  if self.v x ≠ nn then
    if self.pc + 2 < 65536 then some { self with pc := self.pc + 2 } else none
  else some self

/-- `op_5xy0`: `pc += 2` if `v[x] == v[y]`. -/
def Chip8.op_5xy0 (self : Chip8) (x y : Nat) : Option Chip8 :=
  if self.v x = self.v y then
    if self.pc + 2 < 65536 then some { self with pc := self.pc + 2 } else none
  else some self

/-- `op_9xy0`: `pc += 2` if `v[x] != v[y]`. -/
def Chip8.op_9xy0 (self : Chip8) (x y : Nat) : Option Chip8 :=
  if self.v x ≠ self.v y then
    if self.pc + 2 < 65536 then some { self with pc := self.pc + 2 } else none
  else some self

/-- `op_2nnn`: push the current `pc`, then `pc = nnn`. -/
def Chip8.op_2nnn (self : Chip8) (nnn : Nat) : Chip8 :=
  { self with stack := self.pc :: self.stack, pc := nnn }

/-- `op_00ee`: `self.stack.pop().expect(..)` — pops the most recent
return address into `pc`; on an empty stack the `expect` panics
(`none`). -/
def Chip8.op_00ee (self : Chip8) : Option Chip8 :=
  match self.stack with
  | [] => none
  | a :: rest => some { self with pc := a, stack := rest }

/-- `op_bnnn`: `pc = nnn + v[0]` (cannot overflow the `u16`: the
operands are at most 4095 and 255 for in-range states; junk states are
modelled with the plain sum as well). -/
def Chip8.op_bnnn (self : Chip8) (nnn : Nat) : Chip8 :=
  { self with pc := nnn + self.v 0 }

/-- `op_cxnn`: `v[x] = random_byte & nn`, with the host's random byte
passed in as `rnd`. -/
def Chip8.op_cxnn (self : Chip8) (x nn rnd : Nat) : Chip8 :=
  { self with v := updF self.v x ((rnd % 256) &&& nn) }

/-- `op_fx07`: `v[x] = delay_timer`. -/
def Chip8.op_fx07 (self : Chip8) (x : Nat) : Chip8 :=
  { self with v := updF self.v x self.delay_timer }

/-- `op_fx15`: `delay_timer = v[x]`. -/
def Chip8.op_fx15 (self : Chip8) (x : Nat) : Chip8 :=
  { self with delay_timer := self.v x }

/-- `op_fx18`: `sound_timer = v[x]`. -/
def Chip8.op_fx18 (self : Chip8) (x : Nat) : Chip8 :=
  { self with sound_timer := self.v x }

/-- `op_fx1e`: `i += v[x]` — a bare `u16` add, panicking on overflow. -/
def Chip8.op_fx1e (self : Chip8) (x : Nat) : Option Chip8 :=
  if self.i + self.v x < 65536 then some { self with i := self.i + self.v x }
  else none

/-- `op_fx29`: `i = v[x] * 5`. -/
def Chip8.op_fx29 (self : Chip8) (x : Nat) : Chip8 :=
  { self with i := self.v x * 5 }

/-- `op_fx33`: write the decimal digits of `v[x]` to
`memory[i], memory[i+1], memory[i+2]`; the writes panic at indices
≥ 4096. -/
def Chip8.op_fx33 (self : Chip8) (x : Nat) : Option Chip8 :=
  if self.i + 2 < 4096 then
    some { self with
             memory :=
               updF (updF (updF self.memory self.i (self.v x / 100))
                      (self.i + 1) (self.v x / 10 % 10))
                 (self.i + 2) (self.v x % 10) }
  else none

/-- The `for misc in 0..=k` loop of `op_fx55`: write `v[0..=k]` to
`memory[i..=i+k]` in ascending order; each write panics at an index
≥ 4096. -/
def storeRegs (v : Nat → Nat) (iReg : Nat) (mem : Nat → Nat) : Nat → Option (Nat → Nat)
  | 0 => if iReg < 4096 then some (updF mem iReg (v 0)) else none
  | k + 1 =>
    (storeRegs v iReg mem k).bind fun m =>
      if iReg + (k + 1) < 4096 then some (updF m (iReg + (k + 1)) (v (k + 1)))
      else none

/-- `op_fx55`: block-store `v[0..=x]` to memory starting at `i`. -/
def Chip8.op_fx55 (self : Chip8) (x : Nat) : Option Chip8 :=
  (storeRegs self.v self.i self.memory x).map fun m => { self with memory := m }

/-- The `for misc in 0..=k` loop of `op_fx65`: load `v[0..=k]` from
`memory[i..=i+k]` in ascending order. -/
def loadRegs (mem : Nat → Nat) (iReg : Nat) (v : Nat → Nat) : Nat → Option (Nat → Nat)
  | 0 => if iReg < 4096 then some (updF v 0 (mem iReg)) else none
  | k + 1 =>
    (loadRegs mem iReg v k).bind fun v1 =>
      if iReg + (k + 1) < 4096 then some (updF v1 (k + 1) (mem (iReg + (k + 1))))
      else none

/-- `op_fx65`: block-load `v[0..=x]` from memory starting at `i`. -/
def Chip8.op_fx65 (self : Chip8) (x : Nat) : Option Chip8 :=
  (loadRegs self.memory self.i self.v x).map fun v1 => { self with v := v1 }

/-- `op_ex9e`: skip if key `v[x]` is pressed; the `keys[v[x]]` index
panics at ≥ 16. -/
def Chip8.op_ex9e (self : Chip8) (x : Nat) : Option Chip8 :=
  if self.v x < 16 then
    if self.keys (self.v x) then
      if self.pc + 2 < 65536 then some { self with pc := self.pc + 2 } else none
    else some self
  else none

/-- `op_exa1`: skip if key `v[x]` is not pressed. -/
def Chip8.op_exa1 (self : Chip8) (x : Nat) : Option Chip8 :=
  if self.v x < 16 then
    if !self.keys (self.v x) then
      if self.pc + 2 < 65536 then some { self with pc := self.pc + 2 } else none
    else some self
  else none

/-- The `for i in 0..16 { .. break }` scan of `op_fx0a`: the first
pressed key at index ≥ `k`, with `fuel` indices left to look at. -/
def scanKeys (keys : Nat → Bool) (k : Nat) : Nat → Option Nat
  | 0 => none
  | fuel + 1 => if keys k then some k else scanKeys keys (k + 1) fuel

/-- `op_fx0a`: scan keys 0–15 ascending; on the first pressed key set
`v[x]` to its index, else `pc = pc.saturating_sub(2)` (which is exactly
truncated `Nat` subtraction). -/
def Chip8.op_fx0a (self : Chip8) (x : Nat) : Chip8 :=
  match scanKeys self.keys 0 16 with
  | some j => { self with v := updF self.v x j }
  | none => { self with pc := self.pc - 2 }

/-- `execute`: dispatch on `opcode & 0xF000` (and the secondary
nibble/byte for the `0x0`/`0x8`/`0xE`/`0xF` families), exactly the
`match` arms of the source.  Unknown opcodes only `println!` and leave
the state unchanged. -/
def Chip8.execute (self : Chip8) (opcode rnd : Nat) : Option Chip8 :=
  let inst := opcode &&& 0xF000
  if inst = 0x0000 then
    if opcode = 0x00E0 then some { self with display := fun _ _ => false }
    else if opcode = 0x00EE then self.op_00ee
    else some self
  else if inst = 0x1000 then some { self with pc := opcode &&& 0x0FFF }
  else if inst = 0x6000 then
    some { self with v := updF self.v ((opcode &&& 0x0F00) >>> 8) (opcode &&& 0x00FF) }
  else if inst = 0x7000 then
    let x := (opcode &&& 0x0F00) >>> 8
    some { self with v := updF self.v x ((self.v x + (opcode &&& 0x00FF)) % 256) }
  else if inst = 0xA000 then some { self with i := opcode &&& 0x0FFF }
  else if inst = 0xD000 then
    self.op_dxyn ((opcode &&& 0x0F00) >>> 8) ((opcode &&& 0x00F0) >>> 4) (opcode &&& 0x000F)
  else if inst = 0xB000 then some (self.op_bnnn (opcode &&& 0x0FFF))
  else if inst = 0xC000 then
    some (self.op_cxnn ((opcode &&& 0x0F00) >>> 8) (opcode &&& 0x00FF) rnd)
  else if inst = 0xF000 then
    let x := (opcode &&& 0x0F00) >>> 8
    let nn := opcode &&& 0x00FF
    if nn = 0x07 then some (self.op_fx07 x)
    else if nn = 0x0A then some (self.op_fx0a x)
    else if nn = 0x15 then some (self.op_fx15 x)
    else if nn = 0x18 then some (self.op_fx18 x)
    else if nn = 0x1E then self.op_fx1e x
    else if nn = 0x29 then some (self.op_fx29 x)
    else if nn = 0x33 then self.op_fx33 x
    else if nn = 0x55 then self.op_fx55 x
    else if nn = 0x65 then self.op_fx65 x
    else some self
  else if inst = 0x3000 then self.op_3xnn ((opcode &&& 0x0F00) >>> 8) (opcode &&& 0x00FF)
  else if inst = 0x4000 then self.op_4xnn ((opcode &&& 0x0F00) >>> 8) (opcode &&& 0x00FF)
  else if inst = 0x5000 then self.op_5xy0 ((opcode &&& 0x0F00) >>> 8) ((opcode &&& 0x00F0) >>> 4)
  else if inst = 0x9000 then self.op_9xy0 ((opcode &&& 0x0F00) >>> 8) ((opcode &&& 0x00F0) >>> 4)
  else if inst = 0x8000 then
    let x := (opcode &&& 0x0F00) >>> 8
    let y := (opcode &&& 0x00F0) >>> 4
    let op := opcode &&& 0x000F
    if op = 0x0 then some (self.op_8xy0 x y)
    else if op = 0x1 then some (self.op_8xy1 x y)
    else if op = 0x2 then some (self.op_8xy2 x y)
    else if op = 0x3 then some (self.op_8xy3 x y)
    else if op = 0x4 then some (self.op_8xy4 x y)
    else if op = 0x5 then some (self.op_8xy5 x y)
    else if op = 0x6 then some (self.op_8xy6 x)
    else if op = 0x7 then self.op_8xy7 x y
    else if op = 0xE then some (self.op_8xye x)
    else some self
  else if inst = 0x2000 then some (self.op_2nnn (opcode &&& 0x0FFF))
  else if inst = 0xE000 then
    let x := (opcode &&& 0x0F00) >>> 8
    let nn := opcode &&& 0x00FF
    if nn = 0x9E then self.op_ex9e x
    else if nn = 0xA1 then self.op_exa1 x
    else some self
  else some self

/-- One fetch-execute iteration of the frame loop in `main`. -/
def cpuStep (st : Chip8) (rnd : Nat) : Option Chip8 :=
  st.fetch.bind fun p => p.2.execute p.1 rnd

/-- The frame driver's guard in `main`: `if chip8.pc >= 4094 { break; }`
before each `fetch`. -/
def pcOutOfRange (st : Chip8) : Bool := 4094 ≤ st.pc

/-! Concrete states used to instantiate the theorems below. -/

/-- A fresh VM whose register 0xF holds 255. -/
def stVF255 : Chip8 := { Chip8.new with v := fun j => if j = 15 then 255 else 0 }

/-- A fresh VM with `V0 = 5`, `V1 = 3` (so `V1 < V0`). -/
def stSub : Chip8 :=
  { Chip8.new with v := fun j => if j = 0 then 5 else if j = 1 then 3 else 0 }

/-- A fresh VM with only key 3 pressed. -/
def stKey3 : Chip8 := { Chip8.new with keys := fun j => j == 3 }

/-- A fresh VM whose program is `2nnn` at 0x200 with `nnn = 0x300`, and
`00EE` at 0x300. -/
def stCall : Chip8 :=
  { Chip8.new with
      memory := fun a =>
        if a = 0x200 then 0x23 else if a = 0x201 then 0x00
        else if a = 0x300 then 0x00 else if a = 0x301 then 0xEE else 0 }

/-- A fresh VM with `Vj = j + 10` and `I = 0x300`. -/
def stRegs : Chip8 := { Chip8.new with v := fun j => j + 10, i := 0x300 }

set_option maxRecDepth 100000 in
/-- Field extraction from a `6xnn`-family opcode built as
`0x6000 ||| (x <<< 8) ||| nn`. -/
lemma decode6 : ∀ x < 16, ∀ nn < 256,
    ((0x6000 ||| (x <<< 8) ||| nn) &&& 0xF000 = 0x6000) ∧
    (((0x6000 ||| (x <<< 8) ||| nn) &&& 0x0F00) >>> 8 = x) ∧
    ((0x6000 ||| (x <<< 8) ||| nn) &&& 0x00FF = nn) := by decide

/-- C2 (counterexample): with `x = y = 0xF` and `VF = 255` the sum 510
exceeds 255, yet after `8xy4` the flag register holds `510 % 256 = 254`,
not 1 — the stored low byte of the sum overwrites the carry flag. -/
theorem op_8xy4_vf_counterexample :
    stVF255.v 15 + stVF255.v 15 > 255 ∧ (stVF255.op_8xy4 15 15).v 15 ≠ 1 := by
  constructor
  · show (255 : Nat) + 255 > 255
    omega
  · show (254 : Nat) ≠ 1
    omega

/-- C2 (amended): for destination registers other than the flag register
(`x ≠ 0xF`), `8xy4` sets VF to 1 iff `Vx + Vy` exceeds 255 and stores
`(Vx + Vy) % 256` in `Vx`, for all operand values. -/
theorem op_8xy4_addcarry_spec (st : Chip8) (x y : Nat) (hx : x < 16) (hy : y < 16)
    (hxF : x ≠ 15) :
    ((st.op_8xy4 x y).v 15 = 1 ↔ st.v x + st.v y > 255) ∧
    (st.op_8xy4 x y).v x = (st.v x + st.v y) % 256 := by
  have h15 : (15 : Nat) ≠ x := fun h => hxF h.symm
  have hv15 : (st.op_8xy4 x y).v 15 = if st.v x + st.v y > 255 then 1 else 0 := by
    simp [Chip8.op_8xy4, updF, h15]
  refine ⟨⟨fun h1 => ?_, fun hgt => ?_⟩, ?_⟩
  · by_contra hc
    rw [hv15, if_neg hc] at h1
    exact absurd h1 (by omega)
  · rw [hv15, if_pos hgt]
  · simp [Chip8.op_8xy4, updF]

/-- C2 (witness): the amended claim at `x = 0`, `y = 1` on a fresh VM. -/
theorem op_8xy4_addcarry_spec_witness :
    ((Chip8.new.op_8xy4 0 1).v 15 = 1 ↔ Chip8.new.v 0 + Chip8.new.v 1 > 255) ∧
    (Chip8.new.op_8xy4 0 1).v 0 = (Chip8.new.v 0 + Chip8.new.v 1) % 256 :=
  op_8xy4_addcarry_spec Chip8.new 0 1 (by omega) (by omega) (by omega)

/-- C3 (code evaluation): `8xy7` with `V0 = 5`, `V1 = 3` computes the
bare `u8` difference `v[1] - v[0] = 3 - 5`, which underflows and panics
under Rust's checked (debug) arithmetic instead of wrapping to 254. -/
theorem op_8xy7_underflow_panics : stSub.op_8xy7 0 1 = none := by
  rfl

/-- C4 (code evaluation): loading a 3585-byte ROM (one byte over the
`4096 - 0x200` capacity) panics on the `copy_from_slice` range instead
of returning a `CapacityExceeded` error — no such error value exists in
the source. -/
theorem load_rom_oversized_panics :
    Chip8.new.load_rom (List.replicate 3585 0) = none := by
  rw [Chip8.load_rom, if_neg (by rw [List.length_replicate]; omega)]

/-- C5 (code evaluation): executing `00EE` on the fresh VM, whose call
stack is empty, panics via `.expect(..)` instead of returning an
explicit error result. -/
theorem op_00ee_empty_stack_panics : Chip8.new.op_00ee = none := by
  rfl

/-- C9: executing `0x6000 | (x << 8) | nn` sets `Vx` to exactly `nn`
and leaves every other register and the PC unchanged; the handler
itself never moves the PC. -/
theorem execute_6xnn_spec (st : Chip8) (x nn rnd : Nat) (hx : x < 16) (hnn : nn < 256) :
    ∃ st2, st.execute (0x6000 ||| (x <<< 8) ||| nn) rnd = some st2 ∧
      st2.v x = nn ∧ (∀ j, j ≠ x → st2.v j = st.v j) ∧ st2.pc = st.pc := by
  obtain ⟨h1, h2, h3⟩ := decode6 x hx nn hnn
  have hex : st.execute (0x6000 ||| (x <<< 8) ||| nn) rnd
      = some { st with v := updF st.v x nn } := by
    simp only [Chip8.execute, h1, h2, h3]
    norm_num
  refine ⟨_, hex, ?_, ?_, rfl⟩
  · simp [updF]
  · intro j hj
    simp [updF, hj]

/-- C9 (witness): the claim at `x = 3`, `nn = 0xAB` on a fresh VM. -/
theorem execute_6xnn_spec_witness :
    ∃ st2, Chip8.new.execute (0x6000 ||| (3 <<< 8) ||| 0xAB) 0 = some st2 ∧
      st2.v 3 = 0xAB ∧ (∀ j, j ≠ 3 → st2.v j = Chip8.new.v j) ∧ st2.pc = Chip8.new.pc :=
  execute_6xnn_spec Chip8.new 3 0xAB 0 (by omega) (by omega)

/-- C10: whenever the frame driver's guard `pc >= 4094` does not fire,
`fetch` succeeds (neither memory read panics) and both addresses it
reads, `pc` and `pc + 1`, are at most 4094, inside the 4096-byte
memory. -/
theorem fetch_in_bounds_under_guard (st : Chip8) (h : pcOutOfRange st = false) :
    ∃ op st2, st.fetch = some (op, st2) ∧ st.pc + 1 ≤ 4094 ∧ st.pc + 1 < 4096 := by
  have hpc : st.pc < 4094 := by
    simp only [pcOutOfRange, decide_eq_false_iff_not, Nat.not_le] at h
    exact h
  have hf : st.fetch = some (((st.memory st.pc) <<< 8) ||| st.memory (st.pc + 1),
      { st with pc := st.pc + 2 }) := by
    unfold Chip8.fetch
    rw [if_pos (by omega)]
  exact ⟨_, _, hf, by omega, by omega⟩

/-- C10 (witness): the guard and the fetch on a fresh VM. -/
theorem fetch_in_bounds_under_guard_witness :
    ∃ op st2, Chip8.new.fetch = some (op, st2) ∧
      Chip8.new.pc + 1 ≤ 4094 ∧ Chip8.new.pc + 1 < 4096 :=
  fetch_in_bounds_under_guard Chip8.new (by decide)

/-- A successful `scanKeys` finds a pressed key in its window, and every
key strictly before it in the scan is unpressed. -/
lemma scanKeys_some_spec (keys : Nat → Bool) :
    ∀ fuel k j, scanKeys keys k fuel = some j →
      k ≤ j ∧ j < k + fuel ∧ keys j = true ∧ ∀ l, k ≤ l → l < j → keys l = false := by
  intro fuel
  induction fuel with
  | zero => intro k j h; simp [scanKeys] at h
  | succ fuel ih =>
    intro k j h
    rw [scanKeys] at h
    by_cases hk : keys k = true
    · rw [if_pos hk] at h
      obtain rfl : k = j := by simpa using h
      exact ⟨le_refl _, by omega, hk, fun l hl1 hl2 => by omega⟩
    · rw [if_neg hk] at h
      obtain ⟨h1, h2, h3, h4⟩ := ih (k + 1) j h
      refine ⟨by omega, by omega, h3, fun l hl1 hl2 => ?_⟩
      rcases Nat.eq_or_lt_of_le hl1 with rfl | hlt
      · exact Bool.eq_false_iff.mpr hk
      · exact h4 l hlt hl2

/-- A failing `scanKeys` means no key in its window is pressed. -/
lemma scanKeys_none_spec (keys : Nat → Bool) :
    ∀ fuel k, scanKeys keys k fuel = none →
      ∀ l, k ≤ l → l < k + fuel → keys l = false := by
  intro fuel
  induction fuel with
  | zero => intro k _ l h1 h2; omega
  | succ fuel ih =>
    intro k h l h1 h2
    rw [scanKeys] at h
    by_cases hk : keys k = true
    · rw [if_pos hk] at h; exact absurd h (by simp)
    · rw [if_neg hk] at h
      rcases Nat.eq_or_lt_of_le h1 with rfl | hlt
      · exact Bool.eq_false_iff.mpr hk
      · exact ih (k + 1) h l hlt (by omega)

/-- C6: `Fx0A` scans keys 0–F ascending.  If some key is pressed it sets
`Vx` to the first pressed index and changes nothing else (in particular
the PC); if none is pressed it only replaces the PC by `pc - 2`, where
`Nat` truncated subtraction is exactly the source's `saturating_sub`
(saturating at 0 rather than underflowing). -/
theorem op_fx0a_spec (st : Chip8) (x : Nat) :
    ((∃ i, i < 16 ∧ st.keys i = true) →
      ∃ j, j < 16 ∧ st.keys j = true ∧ (∀ l, l < j → st.keys l = false) ∧
        st.op_fx0a x = { st with v := updF st.v x j }) ∧
    ((∀ i, i < 16 → st.keys i = false) →
      st.op_fx0a x = { st with pc := st.pc - 2 }) := by
  constructor
  · rintro ⟨i, hi, hki⟩
    cases hscan : scanKeys st.keys 0 16 with
    | none =>
      have := scanKeys_none_spec st.keys 16 0 hscan i (by omega) (by omega)
      rw [this] at hki
      exact absurd hki (by simp)
    | some j =>
      obtain ⟨_, h2, h3, h4⟩ := scanKeys_some_spec st.keys 16 0 j hscan
      refine ⟨j, by omega, h3, fun l hl => h4 l (by omega) hl, ?_⟩
      rw [Chip8.op_fx0a, hscan]
  · intro hnone
    have hscan : scanKeys st.keys 0 16 = none := by
      cases hscan : scanKeys st.keys 0 16 with
      | none => rfl
      | some j =>
        obtain ⟨_, h2, h3, _⟩ := scanKeys_some_spec st.keys 16 0 j hscan
        rw [hnone j (by omega)] at h3
        exact absurd h3 (by simp)
    rw [Chip8.op_fx0a, hscan]

/-- C6 (witness): with only key 3 pressed, `Fx0A` stores 3 in `V2` and
nothing else changes. -/
theorem op_fx0a_spec_witness :
    ∃ j, j < 16 ∧ stKey3.keys j = true ∧ (∀ l, l < j → stKey3.keys l = false) ∧
      stKey3.op_fx0a 2 = { stKey3 with v := updF stKey3.v 2 j } :=
  (op_fx0a_spec stKey3 2).1 ⟨3, by omega, by decide⟩

/-- `storeRegs` succeeds when the whole window is in range, writes
`v 0 .. v k` to `i .. i + k`, and touches nothing else. -/
lemma storeRegs_spec (v : Nat → Nat) (iReg : Nat) (mem : Nat → Nat) :
    ∀ k, iReg + k < 4096 →
      ∃ m, storeRegs v iReg mem k = some m ∧
        (∀ j, j ≤ k → m (iReg + j) = v j) ∧
        (∀ a, (∀ j, j ≤ k → a ≠ iReg + j) → m a = mem a) := by
  intro k
  induction k with
  | zero =>
    intro h
    refine ⟨updF mem iReg (v 0), ?_, ?_, ?_⟩
    · rw [storeRegs, if_pos (by omega)]
    · intro j hj
      obtain rfl : j = 0 := by omega
      simp [updF]
    · intro a ha
      have := ha 0 (le_refl _)
      simp only [updF, Nat.add_zero] at this ⊢
      rw [if_neg this]
  | succ k ih =>
    intro h
    obtain ⟨m, hm, h1, h2⟩ := ih (by omega)
    refine ⟨updF m (iReg + (k + 1)) (v (k + 1)), ?_, ?_, ?_⟩
    · rw [storeRegs, hm, Option.some_bind, if_pos h]
    · intro j hj
      rcases Nat.eq_or_lt_of_le hj with rfl | hlt
      · simp [updF]
      · rw [updF, if_neg (by omega)]
        exact h1 j (by omega)
    · intro a ha
      rw [updF, if_neg (ha (k + 1) (le_refl _))]
      exact h2 a fun j hj => ha j (by omega)

/-- `loadRegs` succeeds when the whole window is in range and sets
`v 0 .. v k` from `mem i .. mem (i + k)`. -/
lemma loadRegs_spec (mem : Nat → Nat) (iReg : Nat) (v : Nat → Nat) :
    ∀ k, iReg + k < 4096 →
      ∃ v1, loadRegs mem iReg v k = some v1 ∧
        (∀ j, j ≤ k → v1 j = mem (iReg + j)) := by
  intro k
  induction k with
  | zero =>
    intro h
    refine ⟨updF v 0 (mem iReg), ?_, ?_⟩
    · rw [loadRegs, if_pos (by omega)]
    · intro j hj
      obtain rfl : j = 0 := by omega
      simp [updF]
  | succ k ih =>
    intro h
    obtain ⟨v1, hv1, h1⟩ := ih (by omega)
    refine ⟨updF v1 (k + 1) (mem (iReg + (k + 1))), ?_, ?_⟩
    · rw [loadRegs, hv1, Option.some_bind, if_pos h]
    · intro j hj
      rcases Nat.eq_or_lt_of_le hj with rfl | hlt
      · simp [updF]
      · rw [updF, if_neg (by omega)]
        exact h1 j (by omega)

/-- C8: `Fx55` then `Fx65` with the same `x` and `I` (with
`I + x ≤ 4095` so every access is in range) restores `V0..=Vx` to their
pre-store values, for any register contents. -/
theorem fx55_fx65_roundtrip (st : Chip8) (x : Nat) (hx : x < 16)
    (hi : st.i + x ≤ 4095) :
    ∃ st1 st2, st.op_fx55 x = some st1 ∧ st1.op_fx65 x = some st2 ∧
      ∀ j, j ≤ x → st2.v j = st.v j := by
  obtain ⟨m, hm, h1, _⟩ := storeRegs_spec st.v st.i st.memory x (by omega)
  obtain ⟨v1, hv1, g1⟩ := loadRegs_spec m st.i st.v x (by omega)
  refine ⟨{ st with memory := m }, { st with memory := m, v := v1 }, ?_, ?_, ?_⟩
  · rw [Chip8.op_fx55, hm]
    rfl
  · rw [Chip8.op_fx65]
    show (loadRegs m st.i st.v x).map _ = _
    rw [hv1]
    rfl
  · intro j hj
    show v1 j = st.v j
    rw [g1 j hj, h1 j hj]

/-- C8 (witness): the round trip at `x = 2`, `I = 0x300`, `Vj = j + 10`. -/
theorem fx55_fx65_roundtrip_witness :
    ∃ st1 st2, stRegs.op_fx55 2 = some st1 ∧ st1.op_fx65 2 = some st2 ∧
      ∀ j, j ≤ 2 → st2.v j = stRegs.v j :=
  fx55_fx65_roundtrip stRegs 2 (by omega) (by decide)

/-- In-range `fetch` as an equation. -/
lemma fetch_eq (st : Chip8) (h : st.pc + 1 < 4096) :
    st.fetch = some ((st.memory st.pc <<< 8) ||| st.memory (st.pc + 1),
                     { st with pc := st.pc + 2 }) := by
  unfold Chip8.fetch
  rw [if_pos h]

/-- One frame-loop iteration, with `fetch` resolved. -/
lemma cpuStep_eq (st : Chip8) (rnd : Nat) (h : st.pc + 1 < 4096) :
    cpuStep st rnd = Chip8.execute { st with pc := st.pc + 2 }
      ((st.memory st.pc <<< 8) ||| st.memory (st.pc + 1)) rnd := by
  unfold cpuStep
  rw [fetch_eq st h]
  rfl

set_option maxRecDepth 100000 in
/-- A big-endian `2nnn` byte pair reassembles to `0x2000 + nnn`, and the
dispatch fields recovered from that opcode, with `nnn` split into its
high nibble and low byte. -/
lemma decode2aux : ∀ h < 16, ∀ lo < 256,
    (((0x20 + h) <<< 8) ||| lo) = 0x2000 + (h * 256 + lo) ∧
    ((0x2000 + (h * 256 + lo)) &&& 0xF000 = 0x2000) ∧
    ((0x2000 + (h * 256 + lo)) &&& 0x0FFF = h * 256 + lo) := by decide

/-- `decode2aux` restated for an arbitrary 12-bit `nnn`. -/
lemma decode2 (nnn : Nat) (hn : nnn < 4096) :
    (((0x20 + nnn / 256) <<< 8) ||| (nnn % 256)) = 0x2000 + nnn ∧
    ((0x2000 + nnn) &&& 0xF000 = 0x2000) ∧
    ((0x2000 + nnn) &&& 0x0FFF = nnn) := by
  obtain ⟨e1, e2, e3⟩ := decode2aux (nnn / 256) (by omega) (nnn % 256) (by omega)
  have hsplit : nnn / 256 * 256 + nnn % 256 = nnn := by omega
  rw [hsplit] at e1 e2 e3
  exact ⟨e1, e2, e3⟩

/-- C7: from a state whose PC points at a `2nnn` call instruction, one
fetch-execute step (the call) followed by a fetch-execute step of the
`00EE` at `nnn` leaves the PC at exactly `A + 2`, the address just after
the call. -/
theorem call_then_ret_pc (st : Chip8) (A nnn rnd1 rnd2 : Nat)
    (hpc : st.pc = A) (hA : A + 1 < 4096) (hn : nnn < 4096) (hn1 : nnn + 1 < 4096)
    (h1 : st.memory A = 0x20 + nnn / 256) (h2 : st.memory (A + 1) = nnn % 256)
    (h3 : st.memory nnn = 0x00) (h4 : st.memory (nnn + 1) = 0xEE) :
    ∃ st1 st2, cpuStep st rnd1 = some st1 ∧ cpuStep st1 rnd2 = some st2 ∧
      st2.pc = A + 2 := by
  obtain ⟨e1, e2, e3⟩ := decode2 nnn hn
  -- the call step
  have hs1 : cpuStep st rnd1
      = Chip8.execute { st with pc := A + 2 } (0x2000 + nnn) rnd1 := by
    have h := cpuStep_eq st rnd1 (by omega)
    rw [hpc, h1, h2, e1] at h
    exact h
  have hex1 : Chip8.execute { st with pc := A + 2 } (0x2000 + nnn) rnd1
      = some { st with pc := nnn, stack := (A + 2) :: st.stack } := by
    simp only [Chip8.execute, e2, e3]
    norm_num [Chip8.op_2nnn]
  -- the return step
  have hs2 : cpuStep { st with pc := nnn, stack := (A + 2) :: st.stack } rnd2
      = Chip8.execute { st with pc := nnn + 2, stack := (A + 2) :: st.stack }
          ((st.memory nnn <<< 8) ||| st.memory (nnn + 1)) rnd2 :=
    cpuStep_eq { st with pc := nnn, stack := (A + 2) :: st.stack } rnd2 hn1
  rw [h3, h4] at hs2
  have hs2' : cpuStep { st with pc := nnn, stack := (A + 2) :: st.stack } rnd2
      = Chip8.execute { st with pc := nnn + 2, stack := (A + 2) :: st.stack }
          0x00EE rnd2 := hs2
  have hex2 : Chip8.execute { st with pc := nnn + 2, stack := (A + 2) :: st.stack }
      0x00EE rnd2 = some { st with pc := A + 2 } := by
    simp only [Chip8.execute]
    norm_num
    rfl
  exact ⟨_, _, hs1.trans hex1, hs2'.trans hex2, rfl⟩

/-- C7 (witness): the call at 0x200 targeting 0x300, then the return. -/
theorem call_then_ret_pc_witness :
    ∃ st1 st2, cpuStep stCall 0 = some st1 ∧ cpuStep st1 0 = some st2 ∧
      st2.pc = 0x200 + 2 :=
  call_then_ret_pc stCall 0x200 0x300 0 0 rfl (by omega) (by omega) (by omega)
    (by decide) (by decide) (by decide) (by decide)

/-- Adding distinct amounts below the modulus to a common base stays
distinct modulo the modulus. -/
lemma add_mod_inj (a m c1 c2 : Nat) (h1 : c1 < m) (h2 : c2 < m)
    (h : (a + c1) % m = (a + c2) % m) : c1 = c2 := by
  have hm : c1 % m = c2 % m := Nat.ModEq.add_left_cancel' a h
  rwa [Nat.mod_eq_of_lt h1, Nat.mod_eq_of_lt h2] at hm

/-- What the column loop of `Dxyn` does to row `row`: each of the first
`k ≤ 8` columns whose sprite bit is set has its (wrapped) pixel negated,
every other pixel is untouched, and the VF accumulator becomes 1 exactly
when it already was 1 or some processed set bit hit a set pixel.  The
three parts stay phrased over the pre-row display `d`, which is possible
because the 8 wrapped column positions are pairwise distinct. -/
lemma drawCols_spec (xs ys row byte : Nat) (d : Nat → Nat → Bool) (vf : Nat) :
    ∀ k, k ≤ 8 →
      (∀ c, c < k →
        (drawCols xs ys row byte d vf k).1 ((ys + row) % 32) ((xs + c) % 64)
          = (if spriteBit byte c = 1
             then !(d ((ys + row) % 32) ((xs + c) % 64))
             else d ((ys + row) % 32) ((xs + c) % 64))) ∧
      (∀ py px,
        (¬ ∃ c, c < k ∧ spriteBit byte c = 1 ∧ py = (ys + row) % 32 ∧
            px = (xs + c) % 64) →
        (drawCols xs ys row byte d vf k).1 py px = d py px) ∧
      ((drawCols xs ys row byte d vf k).2 = 1 ↔
        vf = 1 ∨ ∃ c, c < k ∧ spriteBit byte c = 1 ∧
          d ((ys + row) % 32) ((xs + c) % 64) = true) ∧
      ((drawCols xs ys row byte d vf k).2 = vf ∨
        (drawCols xs ys row byte d vf k).2 = 1) := by
  intro k
  induction k with
  | zero =>
    intro _
    refine ⟨fun c hc => absurd hc (by omega), fun py px _ => rfl, ?_, Or.inl rfl⟩
    refine ⟨fun h => Or.inl h, ?_⟩
    rintro (h | ⟨c, hc, _⟩)
    · exact h
    · exact absurd hc (by omega)
  | succ k ih =>
    intro hk1
    obtain ⟨ih1, ih2, ih3, ih4⟩ := ih (by omega)
    have hkey : ∀ c, c < 8 → (xs + c) % 64 = (xs + k) % 64 → c = k := fun c hc he =>
      add_mod_inj xs 64 c k (by omega) (by omega) he
    by_cases hbit : spriteBit byte k = 1
    · -- the bit at column k is set: the pixel is flipped
      have hA : (drawCols xs ys row byte d vf k).1 ((ys + row) % 32) ((xs + k) % 64)
          = d ((ys + row) % 32) ((xs + k) % 64) := by
        apply ih2
        rintro ⟨c, hc, _, _, hpx⟩
        exact absurd (hkey c (by omega) hpx.symm) (by omega)
      have hstep : drawCols xs ys row byte d vf (k + 1)
          = (setPix (drawCols xs ys row byte d vf k).1 ((ys + row) % 32)
               ((xs + k) % 64)
               (!((drawCols xs ys row byte d vf k).1 ((ys + row) % 32)
                   ((xs + k) % 64))),
             if (drawCols xs ys row byte d vf k).1 ((ys + row) % 32)
                 ((xs + k) % 64) = true
             then 1 else (drawCols xs ys row byte d vf k).2) := by
        simp only [drawCols]
        rw [if_pos hbit]
      refine ⟨?_, ?_, ?_, ?_⟩
      · intro c hc
        rcases Nat.lt_succ_iff_lt_or_eq.mp hc with hlt | rfl
        · rw [hstep]
          show setPix _ _ _ _ _ _ = _
          rw [setPix, if_neg]
          · exact ih1 c hlt
          · rintro ⟨_, h2⟩
            exact absurd (hkey c (by omega) h2) (by omega)
        · rw [hstep]
          show setPix _ _ _ _ _ _ = _
          rw [setPix, if_pos ⟨rfl, rfl⟩, hA, if_pos hbit]
      · intro py px hno
        rw [hstep]
        show setPix _ _ _ _ _ _ = _
        rw [setPix, if_neg]
        · apply ih2
          rintro ⟨c, hc, hb, hpy, hpx⟩
          exact hno ⟨c, by omega, hb, hpy, hpx⟩
        · rintro ⟨h1, h2⟩
          exact hno ⟨k, by omega, hbit, h1, h2⟩
      · rw [hstep]
        show (if _ = true then 1 else _) = 1 ↔ _
        by_cases hd : (drawCols xs ys row byte d vf k).1 ((ys + row) % 32)
            ((xs + k) % 64) = true
        · rw [if_pos hd]
          rw [hA] at hd
          exact ⟨fun _ => Or.inr ⟨k, by omega, hbit, hd⟩, fun _ => rfl⟩
        · rw [if_neg hd, ih3]
          rw [hA] at hd
          constructor
          · rintro (h | ⟨c, hc, hb, hdc⟩)
            · exact Or.inl h
            · exact Or.inr ⟨c, by omega, hb, hdc⟩
          · rintro (h | ⟨c, hc, hb, hdc⟩)
            · exact Or.inl h
            · rcases Nat.lt_succ_iff_lt_or_eq.mp hc with hlt | rfl
              · exact Or.inr ⟨c, hlt, hb, hdc⟩
              · exact absurd hdc hd
      · rw [hstep]
        show ((if _ = true then 1 else _) = vf ∨ (if _ = true then 1 else _) = 1)
        by_cases hd : (drawCols xs ys row byte d vf k).1 ((ys + row) % 32)
            ((xs + k) % 64) = true
        · rw [if_pos hd]
          exact Or.inr rfl
        · rw [if_neg hd]
          exact ih4
    · -- the bit at column k is clear: nothing happens at step k
      have hstep : drawCols xs ys row byte d vf (k + 1)
          = drawCols xs ys row byte d vf k := by
        simp only [drawCols]
        rw [if_neg hbit]
      refine ⟨?_, ?_, ?_, ?_⟩
      · intro c hc
        rcases Nat.lt_succ_iff_lt_or_eq.mp hc with hlt | rfl
        · rw [hstep]
          exact ih1 c hlt
        · rw [hstep, if_neg hbit]
          apply ih2
          rintro ⟨c', hc', _, _, hpx⟩
          exact absurd (hkey c' (by omega) hpx.symm) (by omega)
      · intro py px hno
        rw [hstep]
        apply ih2
        rintro ⟨c, hc, hb, hpy, hpx⟩
        exact hno ⟨c, by omega, hb, hpy, hpx⟩
      · rw [hstep, ih3]
        constructor
        · rintro (h | ⟨c, hc, hb, hdc⟩)
          · exact Or.inl h
          · exact Or.inr ⟨c, by omega, hb, hdc⟩
        · rintro (h | ⟨c, hc, hb, hdc⟩)
          · exact Or.inl h
          · rcases Nat.lt_succ_iff_lt_or_eq.mp hc with hlt | rfl
            · exact Or.inr ⟨c, hlt, hb, hdc⟩
            · exact absurd hb hbit
      · rw [hstep]
        exact ih4

/-- What the row loop of `Dxyn` does: with all `n ≤ 32` sprite rows in
memory range, every wrapped target pixel of a set sprite bit is negated,
every other pixel is untouched, and the final VF accumulator is 1 exactly
when it started as 1 or some set bit hit a set pixel.  Phrased over the
pre-draw display `d`, which is possible because distinct rows land on
distinct wrapped display rows (as `n ≤ 32`). -/
lemma drawRows_spec (mem : Nat → Nat) (iReg xs ys : Nat) (d : Nat → Nat → Bool)
    (vf : Nat) :
    ∀ n, n ≤ 32 → iReg + n ≤ 4096 →
      ∃ p, drawRows mem iReg xs ys d vf n = some p ∧
        (∀ r c, r < n → c < 8 →
          p.1 ((ys + r) % 32) ((xs + c) % 64)
            = (if spriteBit (mem (iReg + r)) c = 1
               then !(d ((ys + r) % 32) ((xs + c) % 64))
               else d ((ys + r) % 32) ((xs + c) % 64))) ∧
        (∀ py px,
          (¬ ∃ r c, r < n ∧ c < 8 ∧ spriteBit (mem (iReg + r)) c = 1 ∧
              py = (ys + r) % 32 ∧ px = (xs + c) % 64) →
          p.1 py px = d py px) ∧
        (p.2 = 1 ↔ vf = 1 ∨ ∃ r c, r < n ∧ c < 8 ∧
            spriteBit (mem (iReg + r)) c = 1 ∧
            d ((ys + r) % 32) ((xs + c) % 64) = true) ∧
        (p.2 = vf ∨ p.2 = 1) := by
  intro n
  induction n with
  | zero =>
    intro _ _
    refine ⟨(d, vf), rfl, fun r c hr _ => absurd hr (by omega), fun py px _ => rfl,
            ?_, Or.inl rfl⟩
    refine ⟨fun h => Or.inl h, ?_⟩
    rintro (h | ⟨r, c, hr, _⟩)
    · exact h
    · exact absurd hr (by omega)
  | succ n ih =>
    intro hn32 hg
    obtain ⟨p, hpEq, ih1, ih2, ih3, ih4⟩ := ih (by omega) (by omega)
    obtain ⟨c1, c2, c3, c4⟩ := drawCols_spec xs ys n (mem (iReg + n)) p.1 p.2 8 (le_refl _)
    have hrow : ∀ r, r < n → (ys + r) % 32 ≠ (ys + n) % 32 := by
      intro r hr he
      exact absurd (add_mod_inj ys 32 r n (by omega) (by omega) he) (by omega)
    have hC : ∀ c, c < 8 →
        p.1 ((ys + n) % 32) ((xs + c) % 64) = d ((ys + n) % 32) ((xs + c) % 64) := by
      intro c hc
      apply ih2
      rintro ⟨r, c', hr, _, _, hpy, _⟩
      exact hrow r hr hpy.symm
    have hq : drawRows mem iReg xs ys d vf (n + 1)
        = some (drawCols xs ys n (mem (iReg + n)) p.1 p.2 8) := by
      simp only [drawRows]
      rw [hpEq]
      show (if iReg + n < 4096 then
              some (drawCols xs ys n (mem (iReg + n)) p.1 p.2 8)
            else none) = _
      rw [if_pos (by omega)]
    refine ⟨drawCols xs ys n (mem (iReg + n)) p.1 p.2 8, hq, ?_, ?_, ?_, ?_⟩
    · intro r c hr hc
      rcases Nat.lt_succ_iff_lt_or_eq.mp hr with hlt | rfl
      · have hun : ¬ ∃ c', c' < 8 ∧ spriteBit (mem (iReg + n)) c' = 1 ∧
            (ys + r) % 32 = (ys + n) % 32 ∧ (xs + c) % 64 = (xs + c') % 64 := by
          rintro ⟨c', _, _, hpy, _⟩
          exact hrow r hlt hpy
        rw [c2 _ _ hun]
        exact ih1 r c hlt hc
      · rw [c1 c hc, hC c hc]
    · intro py px hno
      have hunA : ¬ ∃ c', c' < 8 ∧ spriteBit (mem (iReg + n)) c' = 1 ∧
          py = (ys + n) % 32 ∧ px = (xs + c') % 64 := by
        rintro ⟨c', hc', hb, hpy, hpx⟩
        exact hno ⟨n, c', by omega, hc', hb, hpy, hpx⟩
      rw [c2 py px hunA]
      apply ih2
      rintro ⟨r, c', hr, hc', hb, hpy, hpx⟩
      exact hno ⟨r, c', by omega, hc', hb, hpy, hpx⟩
    · rw [c3]
      constructor
      · rintro (hp2 | ⟨c', hc', hb, hd⟩)
        · rcases ih3.mp hp2 with h | ⟨r, c'', hr, hc'', hb'', hd''⟩
          · exact Or.inl h
          · exact Or.inr ⟨r, c'', by omega, hc'', hb'', hd''⟩
        · rw [hC c' hc'] at hd
          exact Or.inr ⟨n, c', by omega, hc', hb, hd⟩
      · rintro (h | ⟨r, c', hr, hc', hb, hd⟩)
        · exact Or.inl (ih3.mpr (Or.inl h))
        · rcases Nat.lt_succ_iff_lt_or_eq.mp hr with hlt | rfl
          · exact Or.inl (ih3.mpr (Or.inr ⟨r, c', hlt, hc', hb, hd⟩))
          · refine Or.inr ⟨c', hc', hb, ?_⟩
            rw [hC c' hc']
            exact hd
    · rcases c4 with h | h
      · rw [h]
        exact ih4
      · exact Or.inr h

/-- C1: `Dxyn` succeeds whenever all `n` sprite rows are readable
(`I + n ≤ 4096`; `n < 16` holds for any opcode nibble), and then:
every wrapped target pixel `((Vx % 64 + c) % 64, (Vy % 32 + r) % 32)` of
a set sprite bit (bit `c` of `memory[I + r]`, most significant first) is
XORed (negated), both coordinates wrapping rather than clipping; every
other pixel is unchanged; and the final VF is 0 or 1, equal to 1 iff
some set sprite bit landed on a previously set pixel (a set→unset flip
anywhere in the sprite), which also captures the reset of VF to 0 before
drawing. -/
theorem op_dxyn_spec (st : Chip8) (x y n : Nat) (hn : n < 16)
    (hmem : st.i + n ≤ 4096) :
    ∃ st2, st.op_dxyn x y n = some st2 ∧
      (∀ r c, r < n → c < 8 →
        st2.display ((st.v y % 32 + r) % 32) ((st.v x % 64 + c) % 64)
          = (if spriteBit (st.memory (st.i + r)) c = 1
             then !(st.display ((st.v y % 32 + r) % 32) ((st.v x % 64 + c) % 64))
             else st.display ((st.v y % 32 + r) % 32) ((st.v x % 64 + c) % 64))) ∧
      (∀ py px,
        (¬ ∃ r c, r < n ∧ c < 8 ∧ spriteBit (st.memory (st.i + r)) c = 1 ∧
            py = (st.v y % 32 + r) % 32 ∧ px = (st.v x % 64 + c) % 64) →
        st2.display py px = st.display py px) ∧
      (st2.v 15 = 1 ↔ ∃ r c, r < n ∧ c < 8 ∧
          spriteBit (st.memory (st.i + r)) c = 1 ∧
          st.display ((st.v y % 32 + r) % 32) ((st.v x % 64 + c) % 64) = true) ∧
      (st2.v 15 = 0 ∨ st2.v 15 = 1) := by
  obtain ⟨p, hpEq, h1, h2, h3, h4⟩ :=
    drawRows_spec st.memory st.i (st.v x % 64) (st.v y % 32) st.display 0 n
      (by omega) hmem
  refine ⟨{ st with display := p.1, v := updF st.v 15 p.2 }, ?_, ?_, ?_, ?_, ?_⟩
  · rw [Chip8.op_dxyn]
    show (drawRows st.memory st.i (st.v x % 64) (st.v y % 32) st.display 0 n).map _ = _
    rw [hpEq]
    rfl
  · intro r c hr hc
    show p.1 _ _ = _
    exact h1 r c hr hc
  · intro py px hno
    show p.1 py px = _
    exact h2 py px hno
  · show p.2 = 1 ↔ _
    rw [h3]
    constructor
    · rintro (h0 | h)
      · exact absurd h0 (by omega)
      · exact h
    · exact fun h => Or.inr h
  · show p.2 = 0 ∨ p.2 = 1
    exact h4

/-- C1 (witness): drawing one row of the font sprite at `(0,0)` on a
fresh VM. -/
theorem op_dxyn_spec_witness :
    ∃ st2, Chip8.new.op_dxyn 0 0 1 = some st2 ∧
      (∀ r c, r < 1 → c < 8 →
        st2.display ((Chip8.new.v 0 % 32 + r) % 32) ((Chip8.new.v 0 % 64 + c) % 64)
          = (if spriteBit (Chip8.new.memory (Chip8.new.i + r)) c = 1
             then !(Chip8.new.display ((Chip8.new.v 0 % 32 + r) % 32)
                     ((Chip8.new.v 0 % 64 + c) % 64))
             else Chip8.new.display ((Chip8.new.v 0 % 32 + r) % 32)
                    ((Chip8.new.v 0 % 64 + c) % 64))) ∧
      (∀ py px,
        (¬ ∃ r c, r < 1 ∧ c < 8 ∧ spriteBit (Chip8.new.memory (Chip8.new.i + r)) c = 1 ∧
            py = (Chip8.new.v 0 % 32 + r) % 32 ∧ px = (Chip8.new.v 0 % 64 + c) % 64) →
        st2.display py px = Chip8.new.display py px) ∧
      (st2.v 15 = 1 ↔ ∃ r c, r < 1 ∧ c < 8 ∧
          spriteBit (Chip8.new.memory (Chip8.new.i + r)) c = 1 ∧
          Chip8.new.display ((Chip8.new.v 0 % 32 + r) % 32)
            ((Chip8.new.v 0 % 64 + c) % 64) = true) ∧
      (st2.v 15 = 0 ∨ st2.v 15 = 1) :=
  op_dxyn_spec Chip8.new 0 0 1 (by omega) (by decide)
